import Mathlib

/-!
Formal model of the indicator computations of the Stock Market Dashboard
(src/dashboard.py).  Price series are modelled as lists of rationals.
Pandas/NumPy floating-point results that can be NaN or infinite (the RSI
pipeline divides rolling means that may be zero, and rolling statistics
are NaN during the warm-up window) are modelled by the extended value
type `EF` below, whose arithmetic follows the IEEE-754 conventions that
NumPy float64 arithmetic uses on the exact (rational) values involved.
-/

/-- Extended value: a rational number, positive or negative infinity, or
NaN.  This models the observable float64 values produced by the pandas
pipeline (exact rational inputs; the operations used by the dashboard on
the special values are rounding-free). -/
inductive EF where
  | nan : EF
  | pinf : EF
  | ninf : EF
  | num : ℚ → EF
deriving DecidableEq

/-- IEEE-style addition on extended values. -/
def EF.add : EF → EF → EF
  | .nan, _ => .nan
  | _, .nan => .nan
  | .pinf, .ninf => .nan
  | .ninf, .pinf => .nan
  | .pinf, _ => .pinf
  | _, .pinf => .pinf
  | .ninf, _ => .ninf
  | _, .ninf => .ninf
  | .num a, .num b => .num (a + b)

/-- IEEE-style negation on extended values. -/
def EF.neg : EF → EF
  | .nan => .nan
  | .pinf => .ninf
  | .ninf => .pinf
  | .num a => .num (-a)

/-- IEEE-style subtraction on extended values. -/
def EF.sub (a b : EF) : EF := a.add b.neg

/-- IEEE-style division on extended values.  Division of a nonzero
number by zero gives a signed infinity (the zeros occurring in the
dashboard pipeline are +0), 0/0 gives NaN, and a finite number divided
by an infinity gives 0. -/
def EF.div : EF → EF → EF
  | .nan, _ => .nan
  | _, .nan => .nan
  | .pinf, .pinf => .nan
  | .pinf, .ninf => .nan
  | .ninf, .pinf => .nan
  | .ninf, .ninf => .nan
  | .num _, .pinf => .num 0
  | .num _, .ninf => .num 0
  | .pinf, .num b => if b < 0 then .ninf else .pinf
  | .ninf, .num b => if b < 0 then .pinf else .ninf
  | .num a, .num b =>
      if b = 0 then (if a = 0 then .nan else if 0 < a then .pinf else .ninf)
      else .num (a / b)

instance : Add EF := ⟨EF.add⟩
instance : Neg EF := ⟨EF.neg⟩
instance : Sub EF := ⟨EF.sub⟩
instance : Div EF := ⟨EF.div⟩

theorem EF.nan_add (a : EF) : EF.nan + a = EF.nan := by cases a <;> rfl

theorem EF.add_nan (a : EF) : a + EF.nan = EF.nan := by cases a <;> rfl

theorem EF.nan_div (a : EF) : EF.nan / a = EF.nan := by cases a <;> rfl

theorem EF.div_nan (a : EF) : a / EF.nan = EF.nan := by cases a <;> rfl

theorem EF.sub_nan (a : EF) : a - EF.nan = EF.nan := by cases a <;> rfl

theorem EF.num_add_num (a b : ℚ) : EF.num a + EF.num b = EF.num (a + b) := rfl

theorem EF.num_sub_num (a b : ℚ) : EF.num a - EF.num b = EF.num (a - b) := by
  show EF.num (a + -b) = EF.num (a - b)
  rw [← sub_eq_add_neg]

theorem EF.num_add_pinf (a : ℚ) : EF.num a + EF.pinf = EF.pinf := rfl

theorem EF.num_div_pinf (a : ℚ) : EF.num a / EF.pinf = EF.num 0 := rfl

theorem EF.num_div_num (a b : ℚ) (hb : b ≠ 0) :
    EF.num a / EF.num b = EF.num (a / b) := by
  show EF.div (EF.num a) (EF.num b) = EF.num (a / b)
  simp [EF.div, hb]

theorem EF.num_div_zero_pos (a : ℚ) (ha : 0 < a) :
    EF.num a / EF.num 0 = EF.pinf := by
  show EF.div (EF.num a) (EF.num 0) = EF.pinf
  simp [EF.div, ne_of_gt ha, ha]

theorem EF.zero_div_zero : EF.num 0 / EF.num 0 = EF.nan := by
  show EF.div (EF.num 0) (EF.num 0) = EF.nan
  simp [EF.div]

/-- Line 111 of src/dashboard.py: `change = current_price - prev_close`. -/
def change (current previous : ℚ) : ℚ := current - previous

/-- Line 112 of src/dashboard.py:
`change_pct = (change / prev_close) * 100 if prev_close > 0 else 0`. -/
def change_pct (current previous : ℚ) : ℚ :=
  if previous > 0 then (current - previous) / previous * 100 else 0

/-- Lines 186–200 of src/dashboard.py: the VIX sentiment if/elif chain. -/
def sentiment (vix : ℚ) : String :=
  if vix < 20 then "Extreme Greed"
  else if vix < 30 then "Greed"
  else if vix < 40 then "Neutral"
  else if vix < 50 then "Fear"
  else "Extreme Fear"

/-- Modelled from the spec (§4.1): generic threshold classifier — given
an ascending sequence of (boundary, label) pairs and a default label,
return the first label whose boundary exceeds the value, else the
default.  Stated here to be compared with the concrete if/elif chain
`sentiment` of the source. -/
def classifyLevel (value : ℚ) : List (ℚ × String) → String → String
  | [], dflt => dflt
  | (b, lab) :: rest, dflt =>
      if value < b then lab else classifyLevel value rest dflt

/-- The VIX bucket table used at lines 186–200 of src/dashboard.py. -/
def vixThresholds : List (ℚ × String) :=
  [(20, "Extreme Greed"), (30, "Greed"), (40, "Neutral"), (50, "Fear")]

/-- Lines 81–87 of src/dashboard.py: `fetch_stock_data` wraps the
provider call in a bare try/except and returns `(None, None)` on any
exception.  The fallible provider interaction is modelled as an
`Except` value; the function itself is total (it never raises). -/
def fetch_stock_data (ε H I : Type) (attempt : Except ε (H × I)) :
    Option H × Option I :=
  match attempt with
  | Except.ok (h, i) => (some h, some i)
  | Except.error _ => (none, none)

/-- Trailing window of size `w` ending at position `i` (inclusive):
the elements of `xs` at indices `i+1-w .. i`.  This is the window a
pandas `rolling(window=w)` statistic aggregates at row `i`. -/
def windowAt (w : ℕ) (xs : List ℚ) (i : ℕ) : List ℚ :=
  (xs.take (i + 1)).drop (i + 1 - w)

/-- Pandas `Series.rolling(window=w).mean()`: NaN while fewer than `w`
observations are available (indices `0 .. w-2`), afterwards the mean of
the trailing window. -/
def rollingMean (w : ℕ) (xs : List ℚ) : List EF :=
  (List.range xs.length).map fun i =>
    if i + 1 < w then EF.nan
    else EF.num ((windowAt w xs i).sum / (w : ℚ))

/-- Line 331–332 of src/dashboard.py: `delta = hist['Close'].diff()` and
`gain = delta.where(delta > 0, 0)` (before the rolling mean).  The first
delta is NaN and `NaN > 0` is false, so position 0 is masked to 0. -/
def gain (closes : List ℚ) : List ℚ :=
  (List.range closes.length).map fun i =>
    if i = 0 then 0 else max (closes.getD i 0 - closes.getD (i - 1) 0) 0

/-- Line 333 of src/dashboard.py: `-delta.where(delta < 0, 0)` (before
the rolling mean); position 0 is masked to 0 as in `gain`. -/
def loss (closes : List ℚ) : List ℚ :=
  (List.range closes.length).map fun i =>
    if i = 0 then 0 else max (closes.getD (i - 1) 0 - closes.getD i 0) 0

/-- Lines 331–335 of src/dashboard.py: the RSI pipeline
`rs = gain.rolling(14).mean() / loss.rolling(14).mean()` and
`rsi = 100 - (100 / (1 + rs))`, elementwise with IEEE semantics. -/
def rsi (closes : List ℚ) : List EF :=
  List.zipWith
    (fun g l => EF.num 100 - EF.num 100 / (EF.num 1 + g / l))
    (rollingMean 14 (gain closes)) (rollingMean 14 (loss closes))

/-- The RSI value at position `i` (NaN when out of range, matching the
all-NaN warm-up convention). -/
def rsiAt (closes : List ℚ) (i : ℕ) : EF := (rsi closes).getD i EF.nan

/-- Helper for `ema`: continues an exponential moving average from the
accumulated value `prev`. -/
def emaFrom (alpha prev : ℚ) : List ℚ → List ℚ
  | [] => []
  | x :: rest =>
      (alpha * x + (1 - alpha) * prev) ::
        emaFrom alpha (alpha * x + (1 - alpha) * prev) rest

/-- Pandas `Series.ewm(span=span, adjust=False).mean()` as used at
lines 338–341 of src/dashboard.py: seeded with the first observation
(EMA[0] = x[0]) and EMA[i] = α·x[i] + (1−α)·EMA[i−1] with
α = 2/(span+1). -/
def ema (span : ℕ) : List ℚ → List ℚ
  | [] => []
  | x :: rest => x :: emaFrom (2 / ((span : ℚ) + 1)) x rest

/-- Lines 338–340 of src/dashboard.py: the MACD line is the difference
of the two EMAs.  The source hardcodes spans 12 and 26 with no
parameter validation; the spans are the two `ewm` arguments. -/
def macd (fast slow : ℕ) (closes : List ℚ) : List ℚ :=
  List.zipWith (fun a b => a - b) (ema fast closes) (ema slow closes)

/-- Line 341 of src/dashboard.py:
`signal = macd.ewm(span=9, adjust=False).mean()`. -/
def signal (closes : List ℚ) : List ℚ := ema 9 (macd 12 26 closes)

/-- Rolling variance with denominator `w - ddof`, the statistic under
pandas `rolling(window=w).std(ddof)` (the rolling std at `i` is its
square root). -/
def rollingVarD (ddof w : ℕ) (xs : List ℚ) (i : ℕ) : ℚ :=
  ((windowAt w xs i).map fun x =>
      (x - (windowAt w xs i).sum / (w : ℚ)) ^ 2).sum / ((w : ℚ) - (ddof : ℚ))

/-- Line 345 of src/dashboard.py: `std = hist['Close'].rolling(window=20).std()`
uses the pandas default `ddof=1`; the code's std at a defined position
`i` is the square root of this value. -/
def bbVar (closes : List ℚ) (i : ℕ) : ℚ := rollingVarD 1 20 closes i

/-- Modelled from the spec (§4.2): the population variance over the same
trailing window, denominator = window (ddof = 0).  Stated to be compared
with `bbVar`, the statistic the source actually computes. -/
def popVar (closes : List ℚ) (i : ℕ) : ℚ := rollingVarD 0 20 closes i

/-- Line 344 of src/dashboard.py: `sma = hist['Close'].rolling(window=20).mean()`,
as a rational at a defined position `i`. -/
def smaAt (closes : List ℚ) (i : ℕ) : ℚ := (windowAt 20 closes i).sum / 20

/-- Line 346 of src/dashboard.py: `upper_band = sma + (std * 2)` at a
defined position `i`, with `s` the value of the rolling std there. -/
def upper_band (closes : List ℚ) (s : ℚ) (i : ℕ) : ℚ := smaAt closes i + s * 2

/-- Line 347 of src/dashboard.py: `lower_band = sma - (std * 2)` at a
defined position `i`. -/
def lower_band (closes : List ℚ) (s : ℚ) (i : ℕ) : ℚ := smaAt closes i - s * 2

/-- One row of the market-movers table built at lines 140–146 of
src/dashboard.py. -/
structure Mover where
  symbol : String
  price : ℚ
  chg : ℚ
  changePct : ℚ
  volume : ℚ
deriving DecidableEq

/-- Lines 153–154 of src/dashboard.py:
`movers_df['Abs Change %'] = movers_df['Change %'].abs()` followed by
`movers_df.sort_values('Abs Change %', ascending=False)`. -/
def moversSort (rows : List Mover) : List Mover :=
  rows.mergeSort fun a b => decide (|b.changePct| ≤ |a.changePct|)

theorem gain_length (closes : List ℚ) : (gain closes).length = closes.length := by
  simp [gain]

theorem loss_length (closes : List ℚ) : (loss closes).length = closes.length := by
  simp [loss]

theorem rollingMean_length (w : ℕ) (xs : List ℚ) :
    (rollingMean w xs).length = xs.length := by
  simp [rollingMean]

theorem rsi_length (closes : List ℚ) : (rsi closes).length = closes.length := by
  simp [rsi, rollingMean_length, gain_length, loss_length]

theorem rollingMean_getD_nan (w : ℕ) (xs : List ℚ) (i : ℕ)
    (hi : i < xs.length) (hw : i + 1 < w) :
    (rollingMean w xs).getD i EF.nan = EF.nan := by
  have hlen : i < (rollingMean w xs).length := by
    rw [rollingMean_length]; exact hi
  rw [List.getD_eq_getElem _ _ hlen]
  simp only [rollingMean, List.getElem_map, List.getElem_range]
  simp [hw]

theorem rollingMean_getD_num (w : ℕ) (xs : List ℚ) (i : ℕ)
    (hi : i < xs.length) (hw : w ≤ i + 1) :
    (rollingMean w xs).getD i EF.nan = EF.num ((windowAt w xs i).sum / (w : ℚ)) := by
  have hlen : i < (rollingMean w xs).length := by
    rw [rollingMean_length]; exact hi
  rw [List.getD_eq_getElem _ _ hlen]
  simp only [rollingMean, List.getElem_map, List.getElem_range]
  simp [Nat.not_lt.mpr hw]

theorem rsiAt_eq (closes : List ℚ) (i : ℕ) (hi : i < closes.length) :
    rsiAt closes i =
      EF.num 100 - EF.num 100 /
        (EF.num 1 + (rollingMean 14 (gain closes)).getD i EF.nan /
          (rollingMean 14 (loss closes)).getD i EF.nan) := by
  have hlen : i < (rsi closes).length := by rw [rsi_length]; exact hi
  have hg : i < (rollingMean 14 (gain closes)).length := by
    rw [rollingMean_length, gain_length]; exact hi
  have hl : i < (rollingMean 14 (loss closes)).length := by
    rw [rollingMean_length, loss_length]; exact hi
  rw [rsiAt, List.getD_eq_getElem _ _ hlen]
  simp only [rsi, List.getElem_zipWith]
  rw [List.getD_eq_getElem _ _ hg, List.getD_eq_getElem _ _ hl]

theorem windowAt_length (w : ℕ) (xs : List ℚ) (i : ℕ)
    (hi : i < xs.length) (hw : w ≤ i + 1) :
    (windowAt w xs i).length = w := by
  simp only [windowAt, List.length_drop, List.length_take]
  omega

theorem windowAt_getD (w : ℕ) (xs : List ℚ) (i n : ℕ)
    (hi : i < xs.length) (hw : w ≤ i + 1) (hn : n < w) :
    (windowAt w xs i).getD n 0 = xs.getD (i + 1 - w + n) 0 := by
  have hlen : n < (windowAt w xs i).length := by
    rw [windowAt_length w xs i hi hw]; exact hn
  have hidx : i + 1 - w + n < xs.length := by omega
  rw [List.getD_eq_getElem _ _ hlen, List.getD_eq_getElem _ _ hidx]
  simp only [windowAt]
  rw [List.getElem_drop, List.getElem_take]

theorem windowAt_zero (w : ℕ) (xs : List ℚ) (i : ℕ)
    (hi : i < xs.length) (hw : w ≤ i + 1)
    (hz : ∀ j, i + 1 - w ≤ j → j ≤ i → xs.getD j 0 = 0) :
    windowAt w xs i = List.replicate w (0 : ℚ) := by
  rw [List.eq_replicate_iff]
  refine ⟨windowAt_length w xs i hi hw, ?_⟩
  intro b hb
  rcases List.mem_iff_getElem.mp hb with ⟨n, hn, hbn⟩
  have hn2 : n < w := by
    have := windowAt_length w xs i hi hw
    omega
  have : (windowAt w xs i).getD n 0 = b := by
    rw [List.getD_eq_getElem _ _ hn]; exact hbn
  rw [windowAt_getD w xs i n hi hw hn2] at this
  rw [← this]
  exact hz _ (by omega) (by omega)

theorem gain_getD (closes : List ℚ) (j : ℕ) (hj : j < closes.length) :
    (gain closes).getD j 0 =
      if j = 0 then 0 else max (closes.getD j 0 - closes.getD (j - 1) 0) 0 := by
  have hlen : j < (gain closes).length := by rw [gain_length]; exact hj
  rw [List.getD_eq_getElem _ _ hlen]
  simp [gain]

theorem loss_getD (closes : List ℚ) (j : ℕ) (hj : j < closes.length) :
    (loss closes).getD j 0 =
      if j = 0 then 0 else max (closes.getD (j - 1) 0 - closes.getD j 0) 0 := by
  have hlen : j < (loss closes).length := by rw [loss_length]; exact hj
  rw [List.getD_eq_getElem _ _ hlen]
  simp [loss]

theorem gain_mem_nonneg (closes : List ℚ) (b : ℚ) (hb : b ∈ gain closes) :
    0 ≤ b := by
  simp only [gain, List.mem_map, List.mem_range] at hb
  rcases hb with ⟨i, _, hbi⟩
  rw [← hbi]
  split
  · exact le_refl 0
  · exact le_max_right _ _

theorem loss_mem_nonneg (closes : List ℚ) (b : ℚ) (hb : b ∈ loss closes) :
    0 ≤ b := by
  simp only [loss, List.mem_map, List.mem_range] at hb
  rcases hb with ⟨i, _, hbi⟩
  rw [← hbi]
  split
  · exact le_refl 0
  · exact le_max_right _ _

/-- Auxiliary: at a position whose trailing RSI window of closes is
flat, both rolling averages are 0, `rs = 0/0 = NaN`, and the NaN
propagates to the RSI value. -/
theorem rsi_flat_aux (closes : List ℚ) (i : ℕ)
    (h13 : 13 ≤ i) (hi : i < closes.length)
    (hflat : ∀ j ∈ Finset.Icc (i - 14) i, closes.getD j 0 = closes.getD i 0) :
    rsiAt closes i = EF.nan := by
  have hw : 14 ≤ i + 1 := by omega
  have hgl : i < (gain closes).length := by rw [gain_length]; exact hi
  have hll : i < (loss closes).length := by rw [loss_length]; exact hi
  have hzg : ∀ j, i + 1 - 14 ≤ j → j ≤ i → (gain closes).getD j 0 = 0 := by
    intro j h1 h2
    rw [gain_getD closes j (lt_of_le_of_lt h2 hi)]
    rcases Nat.eq_zero_or_pos j with hj0 | hj1
    · simp [hj0]
    · have e1 : closes.getD j 0 = closes.getD i 0 :=
        hflat j (Finset.mem_Icc.mpr ⟨by omega, h2⟩)
      have e2 : closes.getD (j - 1) 0 = closes.getD i 0 :=
        hflat (j - 1) (Finset.mem_Icc.mpr ⟨by omega, by omega⟩)
      rw [if_neg (Nat.pos_iff_ne_zero.mp hj1), e1, e2]
      simp
  have hzl : ∀ j, i + 1 - 14 ≤ j → j ≤ i → (loss closes).getD j 0 = 0 := by
    intro j h1 h2
    rw [loss_getD closes j (lt_of_le_of_lt h2 hi)]
    rcases Nat.eq_zero_or_pos j with hj0 | hj1
    · simp [hj0]
    · have e1 : closes.getD j 0 = closes.getD i 0 :=
        hflat j (Finset.mem_Icc.mpr ⟨by omega, h2⟩)
      have e2 : closes.getD (j - 1) 0 = closes.getD i 0 :=
        hflat (j - 1) (Finset.mem_Icc.mpr ⟨by omega, by omega⟩)
      rw [if_neg (Nat.pos_iff_ne_zero.mp hj1), e1, e2]
      simp
  have hg : (rollingMean 14 (gain closes)).getD i EF.nan = EF.num 0 := by
    rw [rollingMean_getD_num 14 (gain closes) i hgl hw,
      windowAt_zero 14 (gain closes) i hgl hw hzg]
    norm_num
  have hl : (rollingMean 14 (loss closes)).getD i EF.nan = EF.num 0 := by
    rw [rollingMean_getD_num 14 (loss closes) i hll hw,
      windowAt_zero 14 (loss closes) i hll hw hzl]
    norm_num
  rw [rsiAt_eq closes i hi, hg, hl, EF.zero_div_zero, EF.add_nan, EF.div_nan,
    EF.sub_nan]

/-- C2 (amended): at every position whose trailing RSI window of closes
is flat (all closes at indices i-14 .. i equal), the code's RSI is NaN —
avgGain = avgLoss = 0 makes `rs = 0/0 = NaN`, which propagates — so the
caller observes NaN there, not the value 50 the spec requires. -/
theorem rsi_flat_nan (closes : List ℚ) (i : ℕ)
    (h13 : 13 ≤ i) (hi : i < closes.length)
    (hflat : ∀ j ∈ Finset.Icc (i - 14) i, closes.getD j 0 = closes.getD i 0) :
    rsiAt closes i = EF.nan :=
  rsi_flat_aux closes i h13 hi hflat

/-- C2 (counterexample to the claim as stated): on a flat series of
fifteen equal closes, the RSI at the last position is NaN, not the
defined neutral value 50 the claim requires. -/
theorem rsi_flat_cex :
    rsiAt (List.replicate 15 (10 : ℚ)) 14 = EF.nan ∧ EF.nan ≠ EF.num 50 := by
  constructor
  · exact rsi_flat_aux (List.replicate 15 10) 14 (by norm_num) (by simp)
      (by decide)
  · decide

/-- C2 (witness): the amended theorem applied to a concrete flat series. -/
theorem rsi_flat_nan_wit : rsiAt (List.replicate 14 (7 : ℚ)) 13 = EF.nan :=
  rsi_flat_nan (List.replicate 14 7) 13 (by norm_num) (by simp) (by decide)

/-- C5 (confirmed): at every defined position whose trailing window of
deltas is all nonnegative with at least one strictly positive gain,
avgLoss = 0 and avgGain > 0, so `rs = +inf` under IEEE division and
`rsi = 100 - 100/(1 + inf) = 100`. -/
theorem rsi_all_gains_100 (closes : List ℚ) (i : ℕ)
    (h13 : 13 ≤ i) (hi : i < closes.length)
    (hmono : ∀ j ∈ Finset.Icc (i - 13) i, 1 ≤ j →
      closes.getD (j - 1) 0 ≤ closes.getD j 0)
    (hsome : ∃ j ∈ Finset.Icc (i - 13) i, 1 ≤ j ∧
      closes.getD (j - 1) 0 < closes.getD j 0) :
    rsiAt closes i = EF.num 100 := by
  have hw : 14 ≤ i + 1 := by omega
  have hgl : i < (gain closes).length := by rw [gain_length]; exact hi
  have hll : i < (loss closes).length := by rw [loss_length]; exact hi
  have hzl : ∀ j, i + 1 - 14 ≤ j → j ≤ i → (loss closes).getD j 0 = 0 := by
    intro j h1 h2
    rw [loss_getD closes j (lt_of_le_of_lt h2 hi)]
    rcases Nat.eq_zero_or_pos j with hj0 | hj1
    · simp [hj0]
    · have hle : closes.getD (j - 1) 0 ≤ closes.getD j 0 :=
        hmono j (Finset.mem_Icc.mpr ⟨by omega, h2⟩) hj1
      rw [if_neg (Nat.pos_iff_ne_zero.mp hj1)]
      exact max_eq_right (sub_nonpos_of_le hle)
  have hl : (rollingMean 14 (loss closes)).getD i EF.nan = EF.num 0 := by
    rw [rollingMean_getD_num 14 (loss closes) i hll hw,
      windowAt_zero 14 (loss closes) i hll hw hzl]
    norm_num
  have hnn : ∀ b ∈ windowAt 14 (gain closes) i, 0 ≤ b := by
    intro b hb
    exact gain_mem_nonneg closes b
      (List.mem_of_mem_take (List.mem_of_mem_drop hb))
  rcases hsome with ⟨j0, hj0mem, hj01, hj0lt⟩
  rcases Finset.mem_Icc.mp hj0mem with ⟨hj0lo, hj0hi⟩
  have hn0 : j0 - (i + 1 - 14) < 14 := by omega
  have hidx : i + 1 - 14 + (j0 - (i + 1 - 14)) = j0 := by omega
  have helem : (windowAt 14 (gain closes) i).getD (j0 - (i + 1 - 14)) 0 =
      (gain closes).getD j0 0 := by
    rw [windowAt_getD 14 (gain closes) i _ hgl hw hn0, hidx]
  have hgj0 : 0 < (gain closes).getD j0 0 := by
    rw [gain_getD closes j0 (lt_of_le_of_lt hj0hi hi)]
    simp only [Nat.pos_iff_ne_zero.mp hj01, if_false]
    exact lt_max_of_lt_left (sub_pos.mpr hj0lt)
  have hmemw : (gain closes).getD j0 0 ∈ windowAt 14 (gain closes) i := by
    have hlenw : j0 - (i + 1 - 14) < (windowAt 14 (gain closes) i).length := by
      rw [windowAt_length 14 (gain closes) i hgl hw]; exact hn0
    rw [← helem, List.getD_eq_getElem _ _ hlenw]
    exact List.getElem_mem hlenw
  have hsumpos : 0 < (windowAt 14 (gain closes) i).sum :=
    lt_of_lt_of_le hgj0 (List.single_le_sum hnn _ hmemw)
  have hg : (rollingMean 14 (gain closes)).getD i EF.nan =
      EF.num ((windowAt 14 (gain closes) i).sum / 14) :=
    rollingMean_getD_num 14 (gain closes) i hgl hw
  rw [rsiAt_eq closes i hi, hg, hl,
    EF.num_div_zero_pos _ (div_pos hsumpos (by norm_num)),
    EF.num_add_pinf, EF.num_div_pinf, EF.num_sub_num]
  norm_num

/-- C5 (witness): the spec's concrete scenario — fourteen flat closes
followed by a unit gain; RSI(14) at the last index is 100. -/
theorem rsi_all_gains_100_wit :
    rsiAt [10, 10, 10, 10, 10, 10, 10, 10, 10, 10, 10, 10, 10, 10, (11 : ℚ)]
      14 = EF.num 100 :=
  rsi_all_gains_100
    [10, 10, 10, 10, 10, 10, 10, 10, 10, 10, 10, 10, 10, 10, 11] 14
    (by norm_num) (by simp) (by decide) (by decide)

/-- C6 (amended): for every series of length ≥ 14, the first 13 RSI
entries are NaN (the pandas undefined marker, not zero), and index 13 is
the first position at which RSI can be defined: the entry there is a
number precisely when the trailing gain and loss averages are not both
zero (on a flat first window it is NaN as well). -/
theorem rsi_warmup (closes : List ℚ) (hlen : 14 ≤ closes.length) :
    (∀ i, i < 13 → rsiAt closes i = EF.nan) ∧
    ((∃ q, rsiAt closes 13 = EF.num q) ↔
      ¬(((gain closes).take 14).sum = 0 ∧ ((loss closes).take 14).sum = 0)) := by
  constructor
  · intro i hi13
    have hi : i < closes.length := by omega
    have hig : i < (gain closes).length := by rw [gain_length]; exact hi
    rw [rsiAt_eq closes i hi,
      rollingMean_getD_nan 14 (gain closes) i hig (by omega),
      EF.nan_div, EF.add_nan, EF.div_nan, EF.sub_nan]
  · have h13lt : 13 < closes.length := by omega
    have hgl : 13 < (gain closes).length := by rw [gain_length]; exact h13lt
    have hll : 13 < (loss closes).length := by rw [loss_length]; exact h13lt
    have hwg : windowAt 14 (gain closes) 13 = (gain closes).take 14 := by
      simp [windowAt]
    have hwl : windowAt 14 (loss closes) 13 = (loss closes).take 14 := by
      simp [windowAt]
    have hG0 : 0 ≤ ((gain closes).take 14).sum :=
      List.sum_nonneg fun x hx =>
        gain_mem_nonneg closes x (List.mem_of_mem_take hx)
    have hL0 : 0 ≤ ((loss closes).take 14).sum :=
      List.sum_nonneg fun x hx =>
        loss_mem_nonneg closes x (List.mem_of_mem_take hx)
    rw [rsiAt_eq closes 13 h13lt,
      rollingMean_getD_num 14 (gain closes) 13 hgl (by norm_num),
      rollingMean_getD_num 14 (loss closes) 13 hll (by norm_num), hwg, hwl]
    push_cast
    by_cases hL : ((loss closes).take 14).sum = 0
    · by_cases hG : ((gain closes).take 14).sum = 0
      · rw [hG, hL]
        simp only [zero_div]
        rw [EF.zero_div_zero, EF.add_nan, EF.div_nan, EF.sub_nan]
        simp
      · have hGpos : 0 < ((gain closes).take 14).sum :=
          lt_of_le_of_ne hG0 (Ne.symm hG)
        rw [hL]
        simp only [zero_div]
        rw [EF.num_div_zero_pos _ (div_pos hGpos (by norm_num)),
          EF.num_add_pinf, EF.num_div_pinf, EF.num_sub_num]
        exact iff_of_true ⟨100 - 0, rfl⟩ (fun h => hG h.1)
    · have hr0 : 0 ≤ ((gain closes).take 14).sum / 14 /
          (((loss closes).take 14).sum / 14) :=
        div_nonneg (div_nonneg hG0 (by norm_num))
          (div_nonneg hL0 (by norm_num))
      have h1r : (1 : ℚ) + ((gain closes).take 14).sum / 14 /
          (((loss closes).take 14).sum / 14) ≠ 0 :=
        ne_of_gt (add_pos_of_pos_of_nonneg one_pos hr0)
      rw [EF.num_div_num _ _ (div_ne_zero hL (by norm_num)),
        EF.num_add_num, EF.num_div_num _ _ h1r, EF.num_sub_num]
      exact iff_of_true ⟨_, rfl⟩ (fun h => hL h.2)

/-- C6 (counterexample to the claim as stated): on fourteen equal
closes, the RSI entry at index 13 also holds the undefined marker (NaN),
so it is not the first defined value and more than the first 13 entries
are undefined. -/
theorem rsi_warmup_cex : rsiAt (List.replicate 14 (3 : ℚ)) 13 = EF.nan :=
  rsi_flat_aux (List.replicate 14 3) 13 (by norm_num) (by simp) (by decide)

/-- C6 (witness): the amended theorem applied to a concrete series of
length 14; one of the first 13 entries is NaN. -/
theorem rsi_warmup_wit : rsiAt (List.replicate 14 (10 : ℚ)) 5 = EF.nan :=
  (rsi_warmup (List.replicate 14 10) (by simp)).1 5 (by norm_num)

/-- C1 (counterexample to the claim as stated): the code evaluates
`computeChangeStat(current=50, previous=0)` to the numeric default 0 for
the percent change — not to an undefined value. -/
theorem change_pct_cex : change_pct 50 0 = 0 ∧ change 50 0 = 50 := by
  constructor <;> norm_num [change_pct, change]

/-- C1 (amended): for `previous = 0` the code returns
absoluteChange = current − previous (= current) together with
percentChange = 0: the `if prev_close > 0 else 0` branch substitutes the
numeric default 0 instead of an undefined percent change. -/
theorem change_pct_zero_previous (current : ℚ) :
    change current 0 = current ∧ change_pct current 0 = 0 := by
  constructor
  · simp [change]
  · simp [change_pct]

/-- C8 (confirmed): the VIX if/elif chain agrees with the spec's
`classifyLevel` contract on the VIX threshold table for every value;
`classifyLevel` returns the first label whose boundary exceeds the
value, else the default; and the concrete scenario
`classifyLevel(25, …) = "Greed"` holds. -/
theorem sentiment_classifyLevel :
    (∀ v : ℚ, sentiment v = classifyLevel v vixThresholds "Extreme Fear") ∧
    (∀ (v : ℚ) (ts : List (ℚ × String)) (dflt : String),
      classifyLevel v ts dflt =
        ((ts.find? fun p => decide (v < p.1)).map Prod.snd).getD dflt) ∧
    classifyLevel 25 vixThresholds "Extreme Fear" = "Greed" := by
  refine ⟨fun v => rfl, ?_, by norm_num [classifyLevel, vixThresholds]⟩
  intro v ts dflt
  induction ts with
  | nil => rfl
  | cons p rest ih =>
    obtain ⟨b, lab⟩ := p
    by_cases hv : v < b
    · simp [classifyLevel, List.find?, hv]
    · simp [classifyLevel, List.find?, hv, ih]

/-- C9 (confirmed): `fetch_stock_data` is a total function of the
provider outcome — on any provider exception it returns `(None, None)`,
and on success it returns the history and info; it never propagates an
exception. -/
theorem fetch_stock_data_total (ε H I : Type) (e : ε) (h : H) (i : I) :
    fetch_stock_data ε H I (Except.error e) = (none, none) ∧
    fetch_stock_data ε H I (Except.ok (h, i)) = (some h, some i) :=
  ⟨rfl, rfl⟩

theorem zipWith_sub_neg (as bs : List ℚ) :
    List.zipWith (fun a b => a - b) as bs =
      (List.zipWith (fun a b => a - b) bs as).map fun q => -q := by
  induction as generalizing bs with
  | nil => cases bs <;> rfl
  | cons a rest ih =>
    cases bs with
    | nil => rfl
    | cons b rest2 => simp [ih, neg_sub]

/-- C4 (amended): the source performs no fast/slow validation at
all — the MACD block has hardcoded spans and no `ConfigurationError`
exists anywhere in the code.  Called with swapped spans it silently
produces the negated (inverted) conventional indicator. -/
theorem macd_swap_neg (fast slow : ℕ) (closes : List ℚ) :
    macd fast slow closes = (macd slow fast closes).map fun q => -q :=
  zipWith_sub_neg (ema fast closes) (ema slow closes)

/-- C4 (counterexample to the claim as stated): with fast=26, slow=12
the computation returns an ordinary numeric series (the inverted
indicator) instead of failing fast. -/
theorem macd_swap_cex : macd 26 12 [(10 : ℚ), 20] = [0, -(280 / 351)] := by
  norm_num [macd, ema, emaFrom]

theorem emaFrom_length (alpha prev : ℚ) (l : List ℚ) :
    (emaFrom alpha prev l).length = l.length := by
  induction l generalizing prev with
  | nil => rfl
  | cons x rest ih => simp [emaFrom, ih]

theorem ema_length (span : ℕ) (l : List ℚ) : (ema span l).length = l.length := by
  cases l with
  | nil => rfl
  | cons x rest => simp [ema, emaFrom_length]

theorem macd_length (fast slow : ℕ) (closes : List ℚ) :
    (macd fast slow closes).length = closes.length := by
  simp [macd, ema_length]

theorem signal_length (closes : List ℚ) :
    (signal closes).length = closes.length := by
  simp [signal, ema_length, macd_length]

theorem emaFrom_getD (alpha : ℚ) (l : List ℚ) (prev : ℚ) (i : ℕ)
    (hi : i < l.length) :
    (emaFrom alpha prev l).getD i 0 =
      alpha * l.getD i 0 + (1 - alpha) *
        (if i = 0 then prev else (emaFrom alpha prev l).getD (i - 1) 0) := by
  induction l generalizing prev i with
  | nil => simp at hi
  | cons x rest ih =>
    cases i with
    | zero => simp [emaFrom]
    | succ n =>
      have hn : n < rest.length := by simpa using hi
      simp only [emaFrom, List.getD_cons_succ]
      rw [ih _ n hn]
      cases n with
      | zero => simp
      | succ m => simp [List.getD_cons_succ]

/-- C7 (confirmed): for every nonempty price series, the MACD line and
the signal line have the same length as the input (every entry is an
ordinary number — the codomain has no undefined marker), and every EMA
used satisfies the first-observation seeding EMA[0] = close[0] with
EMA[i+1] = α·close[i+1] + (1−α)·EMA[i], α = 2/(span+1). -/
theorem macd_defined_from_start (closes : List ℚ) (hne : 1 ≤ closes.length) :
    (macd 12 26 closes).length = closes.length ∧
    (signal closes).length = closes.length ∧
    ∀ span : ℕ,
      (ema span closes).getD 0 0 = closes.getD 0 0 ∧
      ∀ i, i + 1 < closes.length →
        (ema span closes).getD (i + 1) 0 =
          2 / ((span : ℚ) + 1) * closes.getD (i + 1) 0 +
            (1 - 2 / ((span : ℚ) + 1)) * (ema span closes).getD i 0 := by
  refine ⟨macd_length 12 26 closes, signal_length closes,
    fun span => ⟨?_, ?_⟩⟩
  · cases closes with
    | nil => simp at hne
    | cons x rest => simp [ema]
  · intro i hi
    cases closes with
    | nil => simp at hne
    | cons x rest =>
      have hi2 : i < rest.length := by simpa using hi
      simp only [ema, List.getD_cons_succ]
      rw [emaFrom_getD _ _ _ _ hi2]
      cases i with
      | zero => simp [ema]
      | succ m => simp [ema, List.getD_cons_succ]

/-- C7 (witness): the theorem applied to the concrete series [1, 2]. -/
theorem macd_defined_from_start_wit :
    (macd 12 26 [(1 : ℚ), 2]).length = 2 ∧
    (ema 12 [(1 : ℚ), 2]).getD 0 0 = 1 :=
  ⟨(macd_defined_from_start [1, 2] (by norm_num)).1,
    ((macd_defined_from_start [1, 2] (by norm_num)).2.2 12).1⟩

/-- C3 (counterexample to the claim as stated): on a concrete window of
nineteen zeros and one 20, the code's rolling variance (pandas default
ddof=1, denominator 19) is 20, while the population variance
(denominator 20) is 19 — so the code's stddev is the sample standard
deviation, not the population one the claim asserts. -/
theorem bollinger_cex :
    bbVar [0, 0, 0, 0, 0, 0, 0, 0, 0, 0, 0, 0, 0, 0, 0, 0, 0, 0, 0, (20 : ℚ)]
        19 = 20 ∧
    popVar [0, 0, 0, 0, 0, 0, 0, 0, 0, 0, 0, 0, 0, 0, 0, 0, 0, 0, 0, (20 : ℚ)]
        19 = 19 ∧
    (20 : ℚ) ≠ 19 := by
  refine ⟨?_, ?_, by norm_num⟩ <;>
    norm_num [bbVar, popVar, rollingVarD, windowAt]

/-- C3 (amended): at every defined position the code's stddev is the
sample standard deviation — its square times (window − 1) equals the sum
of squared deviations from the window mean (denominator window − 1, the
pandas `std()` default, not window) — and the bands still satisfy
upper = middle + 2·stddev and lower = middle − 2·stddev. -/
theorem bollinger_sample_std (closes : List ℚ) (i : ℕ) (s : ℚ)
    (hi19 : 19 ≤ i) (hi : i < closes.length) (hs0 : 0 ≤ s)
    (hs : s ^ 2 = bbVar closes i) :
    s ^ 2 * (20 - 1) =
      ((windowAt 20 closes i).map fun x => (x - smaAt closes i) ^ 2).sum ∧
    upper_band closes s i - lower_band closes s i = 4 * s ∧
    upper_band closes s i + lower_band closes s i = 2 * smaAt closes i := by
  refine ⟨?_, by simp only [upper_band, lower_band]; ring,
    by simp only [upper_band, lower_band]; ring⟩
  rw [hs, bbVar, rollingVarD]
  simp only [smaAt, Nat.cast_ofNat, Nat.cast_one]
  rw [div_mul_cancel₀ _ (show ((20 : ℚ) - 1) ≠ 0 by norm_num)]

/-- C3 (witness): the amended theorem applied to a flat window of
twenty fives, where the rolling standard deviation is 0. -/
theorem bollinger_sample_std_wit :
    (0 : ℚ) ^ 2 * (20 - 1) =
      ((windowAt 20 [5, 5, 5, 5, 5, 5, 5, 5, 5, 5, 5, 5, 5, 5, 5, 5, 5, 5, 5,
          (5 : ℚ)] 19).map fun x =>
        (x - smaAt [5, 5, 5, 5, 5, 5, 5, 5, 5, 5, 5, 5, 5, 5, 5, 5, 5, 5, 5,
          (5 : ℚ)] 19) ^ 2).sum ∧
    upper_band [5, 5, 5, 5, 5, 5, 5, 5, 5, 5, 5, 5, 5, 5, 5, 5, 5, 5, 5,
        (5 : ℚ)] 0 19 -
      lower_band [5, 5, 5, 5, 5, 5, 5, 5, 5, 5, 5, 5, 5, 5, 5, 5, 5, 5, 5,
        (5 : ℚ)] 0 19 = 4 * 0 ∧
    upper_band [5, 5, 5, 5, 5, 5, 5, 5, 5, 5, 5, 5, 5, 5, 5, 5, 5, 5, 5,
        (5 : ℚ)] 0 19 +
      lower_band [5, 5, 5, 5, 5, 5, 5, 5, 5, 5, 5, 5, 5, 5, 5, 5, 5, 5, 5,
        (5 : ℚ)] 0 19 =
      2 * smaAt [5, 5, 5, 5, 5, 5, 5, 5, 5, 5, 5, 5, 5, 5, 5, 5, 5, 5, 5,
        (5 : ℚ)] 19 :=
  bollinger_sample_std
    [5, 5, 5, 5, 5, 5, 5, 5, 5, 5, 5, 5, 5, 5, 5, 5, 5, 5, 5, 5] 19 0
    (by norm_num) (by norm_num) le_rfl
    (by norm_num [bbVar, rollingVarD, windowAt])

/-- C10 (confirmed): whenever the movers table is non-empty, the
displayed rows are a permutation of the fetched rows sorted by the
absolute percent change in descending order (largest absolute mover
first). -/
theorem movers_sorted_desc (rows : List Mover) (hne : rows ≠ []) :
    (moversSort rows).Perm rows ∧
    List.Pairwise (fun a b => |b.changePct| ≤ |a.changePct|)
      (moversSort rows) := by
  constructor
  · exact List.mergeSort_perm rows _
  · have htrans : ∀ a b c : Mover,
        decide (|b.changePct| ≤ |a.changePct|) = true →
        decide (|c.changePct| ≤ |b.changePct|) = true →
        decide (|c.changePct| ≤ |a.changePct|) = true := by
      intro a b c h1 h2
      simp only [decide_eq_true_eq] at h1 h2 ⊢
      exact le_trans h2 h1
    have htot : ∀ a b : Mover,
        (decide (|b.changePct| ≤ |a.changePct|) ||
          decide (|a.changePct| ≤ |b.changePct|)) = true := by
      intro a b
      simp only [Bool.or_eq_true, decide_eq_true_eq]
      exact le_total _ _
    have h := @List.sorted_mergeSort Mover
      (fun a b => decide (|b.changePct| ≤ |a.changePct|)) htrans htot rows
    simpa [moversSort, decide_eq_true_eq] using h

/-- C10 (witness): the theorem applied to a one-row table. -/
theorem movers_sorted_desc_wit :
    (moversSort [Mover.mk "AAPL" 1 1 1 1]).Perm [Mover.mk "AAPL" 1 1 1 1] ∧
    List.Pairwise (fun a b => |b.changePct| ≤ |a.changePct|)
      (moversSort [Mover.mk "AAPL" 1 1 1 1]) :=
  movers_sorted_desc [Mover.mk "AAPL" 1 1 1 1] (by simp)
